import Mathlib

/-!
Verification of the procedural particle/instance animation engine of the
ChristmasTree repository (src/main.js), against its natural-language
specification.  Numeric values are embedded over the rationals where the
source performs only field arithmetic and comparisons, and over the reals
where the source uses trigonometry or square roots.
-/

namespace ChristmasTree

/-- A 3D vector with rational coordinates. -/
structure Vec3 where
  x : ℚ
  y : ℚ
  z : ℚ
deriving DecidableEq, Repr

/-- Per-frame gravity constant of the burst update (src/main.js line 560:
the vertical position advances by `velocity.y - 0.003`). -/
def gravity : ℚ := 3 / 1000

/-- Per-frame drag factor of the burst update (src/main.js lines 563-565:
every velocity component is multiplied by `0.97`). -/
def drag : ℚ := 97 / 100

/-- One frame of the explosion-branch physics of `updateFireworks`
(src/main.js lines 558-566) on a single particle: the position advances by
the velocity, with the constant `0.003` subtracted from the vertical
component of the position update only; afterwards every component of the
stored velocity is multiplied by `0.97`.  The stored velocity is never
decremented by gravity. -/
def particleStep (p v : Vec3) : Vec3 × Vec3 :=
  (⟨p.x + v.x, p.y + (v.y - gravity), p.z + v.z⟩,
   ⟨v.x * drag, v.y * drag, v.z * drag⟩)

/-- Modelled from the claim's words (not from the source): the position is
advanced by the velocity, then a constant downward gravity decrement is
applied to the velocity's vertical component, then the drag factor is
applied to all three velocity components. -/
def particleStepClaimed (p v : Vec3) : Vec3 × Vec3 :=
  (⟨p.x + v.x, p.y + v.y, p.z + v.z⟩,
   ⟨v.x * drag, (v.y - gravity) * drag, v.z * drag⟩)

/-- Iterating the particle physics for a number of frames. -/
def particleIter : ℕ → Vec3 × Vec3 → Vec3 × Vec3
  | 0, s => s
  | n + 1, s => particleIter n (particleStep s.1 s.2)

/-- An ascending firework rocket (src/main.js `createRocket`, lines 461-469):
horizontal position, current altitude, target altitude and ascent speed. -/
structure Rocket where
  x : ℚ
  y : ℚ
  z : ℚ
  targetY : ℚ
  speed : ℚ
deriving DecidableEq, Repr

/-- The scalar aging state of a bursting firework (src/main.js
`createExplosion`, lines 517-523), together with its creation origin.  The
per-particle kinematics are modelled by `particleStep`. -/
structure Burst where
  origin : Vec3
  life : ℚ
  decay : ℚ
  opacity : ℚ
deriving DecidableEq, Repr

/-- A firework pool entity is either an ascending rocket or a burst
(the `type` field of the objects pushed into `fireworks`). -/
inductive Firework where
  | rocket : Rocket → Firework
  | explosion : Burst → Firework
deriving DecidableEq, Repr

/-- `createExplosion x y z d` (src/main.js lines 473-524): a burst at origin
`(x, y, z)` with `life = 1.0`, the sampled `decay`, and material opacity 1. -/
def createExplosion (x y z d : ℚ) : Burst :=
  ⟨⟨x, y, z⟩, 1, d, 1⟩

/-- The random decay sample of `createExplosion` (line 522):
`0.01 + u * 0.005` for a uniform sample `u ∈ [0, 1)`. -/
def decaySample (u : ℚ) : ℚ := 1 / 100 + u * (5 / 1000)

/-- The aging part of the explosion branch of `updateFireworks`
(lines 569-571): `life -= decay` and the material opacity is set to the
new `life`. -/
def updateBurst (b : Burst) : Burst :=
  ⟨b.origin, b.life - b.decay, b.decay, b.life - b.decay⟩

/-- One frame of `updateFireworks` (lines 534-581) on a single pool entity,
returning the list of entities that replace it in the pool.  A rocket
advances by its speed; when the updated altitude reaches the target the
rocket is spliced out and exactly one explosion is pushed at
`(x, updated y, z)` (lines 544-553; `d` is the decay sample of the new
burst).  An explosion ages; it is spliced out exactly when the updated
`life` is `≤ 0` (lines 574-579). -/
def updateEntity (d : ℚ) : Firework → List Firework
  | Firework.rocket r =>
      let y2 := r.y + r.speed
      if r.targetY ≤ y2 then
        [Firework.explosion (createExplosion r.x y2 r.z d)]
      else
        [Firework.rocket ⟨r.x, y2, r.z, r.targetY, r.speed⟩]
  | Firework.explosion b =>
      let b2 := updateBurst b
      if b2.life ≤ 0 then [] else [Firework.explosion b2]

/-- One whole frame of `updateFireworks` (lines 527-582): `spawn` is the
rocket produced this frame by the random spawn test, if any; it is appended
only when the pool holds fewer than 8 entities (line 529), and is then
updated together with the rest of the pool. -/
def updateFireworks (spawn : Option Rocket) (d : ℚ) (pool : List Firework) :
    List Firework :=
  let pool2 := match spawn with
    | some r => if pool.length < 8 then pool ++ [Firework.rocket r] else pool
    | none => pool
  (pool2.map (updateEntity d)).flatten

/-- Initial value of the mutable `explosionSpeed` (src/main.js line 155). -/
def explosionSpeed0 : ℚ := 1 / 1000

/-- `explosionAcceleration` (src/main.js line 156). -/
def explosionAcceleration : ℚ := 25 / 100000

/-- The assembly animator's mutable state: the shared progress uniform
`explosionUniforms.uProgress.value` and the mutable `explosionSpeed`. -/
structure AssemblyState where
  progress : ℚ
  speed : ℚ
deriving DecidableEq, Repr

/-- One frame of the assembly update in `animate` (src/main.js lines
641-660): while `progress < 1`, the speed grows by the acceleration, the
progress advances by the new speed, and a result that reached 1 is clamped
to exactly 1 in the same frame.  Once the progress is at least 1 the whole
block is skipped and the state is never mutated again. -/
def assemblyStep (s : AssemblyState) : AssemblyState :=
  if s.progress < 1 then
    let sp := s.speed + explosionAcceleration
    let p := s.progress + sp
    if 1 ≤ p then ⟨1, sp⟩ else ⟨p, sp⟩
  else s

/-- The assembly state after `n` frames from the startup state
(`uProgress = 0`, `explosionSpeed = 0.001`). -/
def assemblyIter (n : ℕ) : AssemblyState :=
  assemblyStep^[n] ⟨0, explosionSpeed0⟩

/-- `whiteColor` (src/main.js line 624), the fixed highlight color. -/
def whiteColor : Vec3 := ⟨1, 1, 1⟩

/-- Writing one instance's color (`ornaments.setColorAt`). -/
def setColorAt (c : ℕ → Vec3) (i : ℕ) (v : Vec3) : ℕ → Vec3 :=
  fun j => if j = i then v else c j

/-- The highlight controller's state: `hoveredInstanceId` (with `none` for
the sentinel `-1`) and the ornament instance color buffer. -/
structure HighlightState where
  hovered : Option ℕ
  colors : ℕ → Vec3

/-- One frame of the highlight logic in `animate` (src/main.js lines
668-698), given the hit-test result `hit` and the immutable original-color
table `orig`: when the hit instance differs from the stored one, the
previously highlighted instance (if any) is restored from `orig` and the
hit instance is painted `whiteColor`; when there is no hit, an active
highlight is restored from `orig` and cleared. -/
def highlightStep (orig : ℕ → Vec3) (hit : Option ℕ) (s : HighlightState) :
    HighlightState :=
  match hit with
  | some j =>
      if s.hovered = some j then s
      else
        let c1 := match s.hovered with
          | some i => setColorAt s.colors i (orig i)
          | none => s.colors
        ⟨some j, setColorAt c1 j whiteColor⟩
  | none =>
      match s.hovered with
      | some i => ⟨none, setColorAt s.colors i (orig i)⟩
      | none => s

/-- The highlight invariant: every instance that is not currently
highlighted carries its original palette color, and the highlighted one
(if any) carries the highlight color. -/
def HighlightInv (orig : ℕ → Vec3) (s : HighlightState) : Prop :=
  ∀ i, s.colors i = if s.hovered = some i then whiteColor else orig i

/-- An instance population loop: instance `k` of `n` receives `sample k`
(the bodies of the loops at src/main.js lines 246-264, 292-316, 337-354). -/
def populate {α : Type} (n : ℕ) (sample : ℕ → α) : List α :=
  (List.range n).map sample

/-- Foliage placement for instance `i` of `n` from the tree population loop
(src/main.js lines 246-258): `fr = i/n`, height `fr * H`, cone radius
`(1 - fr) * R`, angle `fr * π * 40 + jitter` with the random jitter in
`[0, 0.5)`, and radial distance `r * (0.5 + u * 0.5)` for a uniform sample
`u ∈ [0, 1)`. -/
noncomputable def leafPos (H R : ℝ) (n i : ℕ) (jitter u : ℝ) : ℝ × ℝ × ℝ :=
  let fr : ℝ := (i : ℝ) / (n : ℝ)
  let r := (1 - fr) * R
  let angle := fr * Real.pi * 40 + jitter
  let dist := r * (1 / 2 + u * (1 / 2))
  (Real.cos angle * dist, fr * H, Real.sin angle * dist)

/-- Modelled from the claim's words (not from the source): identical to
`leafPos` except that the angular position advances by `(i/n) * 40 * 2π`
instead of the source's `(i/n) * π * 40`. -/
noncomputable def leafPosClaimed (H R : ℝ) (n i : ℕ) (jitter u : ℝ) :
    ℝ × ℝ × ℝ :=
  let fr : ℝ := (i : ℝ) / (n : ℝ)
  let r := (1 - fr) * R
  let angle := fr * (40 * (2 * Real.pi)) + jitter
  let dist := r * (1 / 2 + u * (1 / 2))
  (Real.cos angle * dist, fr * H, Real.sin angle * dist)

/-- Ornament placement from the ornament population loop (src/main.js lines
292-306): a uniform height sample `fr ∈ [0, 1)`, uniform `angle ∈ [0, 2π)`,
placed on the cone surface at radius `(1 - fr) * R`. -/
noncomputable def ornamentPos (H R fr angle : ℝ) : ℝ × ℝ × ℝ :=
  let r := (1 - fr) * R
  (Real.cos angle * r, fr * H, Real.sin angle * r)

/-- Gift-box placement from the box population loop (src/main.js lines
337-350): like `ornamentPos` but pushed out to radius `r + 0.2`. -/
noncomputable def boxPos (H R fr angle : ℝ) : ℝ × ℝ × ℝ :=
  let r := (1 - fr) * R
  (Real.cos angle * (r + 1 / 5), fr * H, Real.sin angle * (r + 1 / 5))

/-- GLSL `smoothstep(0.0, 1.0, x)`: clamp to `[0, 1]`, then `t²(3 - 2t)`. -/
noncomputable def smoothstep01 (x : ℝ) : ℝ :=
  let t := min (max x 0) 1
  t * t * (3 - 2 * t)

/-- The per-vertex displacement factor of `injectExplosionShader`
(src/main.js lines 174-175): `1.0 - pow(smoothstep(0.0, 1.0, uProgress), 0.5)`. -/
noncomputable def explodeFactor (uProgress : ℝ) : ℝ :=
  1 - smoothstep01 uProgress ^ ((1 : ℝ) / 2)

/-! ## Theorems -/

/-- Extensionality helper for `Vec3`. -/
theorem Vec3.ext' {a b : Vec3} (hx : a.x = b.x) (hy : a.y = b.y)
    (hz : a.z = b.z) : a = b := by
  cases a; cases b; simp_all

/-- The velocity after `n` frames of the burst physics is the initial
velocity scaled by `drag ^ n`. -/
theorem particleIter_velocity (n : ℕ) : ∀ p v : Vec3,
    (particleIter n (p, v)).2 = ⟨v.x * drag ^ n, v.y * drag ^ n, v.z * drag ^ n⟩ := by
  induction n with
  | zero =>
      intro p v
      exact Vec3.ext' (by simp [particleIter]) (by simp [particleIter])
        (by simp [particleIter])
  | succ n ih =>
      intro p v
      have h : particleIter (n + 1) (p, v)
          = particleIter n (particleStep p v) := rfl
      rw [h, particleStep, ih]
      exact Vec3.ext' (by ring) (by ring) (by ring)

/-- C1 (counterexample): the claim reads the burst step as decrementing the
stored velocity's vertical component by gravity; the source instead applies
the gravity constant inside the vertical position update only.  At the
particle `p = v = 0` the two step functions disagree: the source leaves the
velocity's vertical component at `0` and moves the position down by
`0.003`, while the claimed step leaves the position in place and drives the
velocity's vertical component negative. -/
theorem C1_counterexample :
    particleStep ⟨0, 0, 0⟩ ⟨0, 0, 0⟩ ≠ particleStepClaimed ⟨0, 0, 0⟩ ⟨0, 0, 0⟩ ∧
    (particleStep ⟨0, 0, 0⟩ ⟨0, 0, 0⟩).2.y = 0 ∧
    (particleStepClaimed ⟨0, 0, 0⟩ ⟨0, 0, 0⟩).2.y < 0 ∧
    (particleStep ⟨0, 0, 0⟩ ⟨0, 0, 0⟩).1.y < 0 ∧
    (particleStepClaimed ⟨0, 0, 0⟩ ⟨0, 0, 0⟩).1.y = 0 := by
  have hcode : particleStep ⟨0, 0, 0⟩ ⟨0, 0, 0⟩ =
      (⟨0, -(3 / 1000), 0⟩, ⟨0, 0, 0⟩) := by
    norm_num [particleStep, gravity, drag]
  have hclaim : particleStepClaimed ⟨0, 0, 0⟩ ⟨0, 0, 0⟩ =
      (⟨0, 0, 0⟩, ⟨0, -(291 / 100000), 0⟩) := by
    norm_num [particleStepClaimed, gravity, drag]
  rw [hcode, hclaim]
  refine ⟨?_, rfl, by norm_num, by norm_num, rfl⟩
  intro h
  rw [Prod.ext_iff] at h
  have := h.1
  simp only [Vec3.mk.injEq] at this
  norm_num at this

/-- C1 (amended): each burst particle's position advances by its velocity
with the constant gravity `0.003` subtracted from the vertical component of
the position update only (the stored velocity is never decremented by
gravity), and the multiplicative drag `0.97 < 1` is applied to all three
velocity components every frame, so the velocity after `n` frames is the
initial velocity scaled by `drag ^ n` (exponential speed decay). -/
theorem C1_burst_physics (p v : Vec3) (n : ℕ) :
    particleStep p v =
      (⟨p.x + v.x, p.y + v.y - gravity, p.z + v.z⟩,
       ⟨v.x * drag, v.y * drag, v.z * drag⟩) ∧
    0 < gravity ∧ drag < 1 ∧
    (particleIter n (p, v)).2 =
      ⟨v.x * drag ^ n, v.y * drag ^ n, v.z * drag ^ n⟩ := by
  refine ⟨?_, by norm_num [gravity], by norm_num [drag],
    particleIter_velocity n p v⟩
  rw [particleStep]
  refine Prod.ext ?_ rfl
  exact Vec3.ext' rfl (by ring) rfl

/-- C2 (counterexample): a rocket at altitude `0` with speed `1/5` and
target altitude `1/10` reaches its target on this frame, but the burst is
created at the updated altitude `1/5`, not at the target altitude `1/10`
as the claim states. -/
theorem C2_counterexample :
    updateEntity 0 (Firework.rocket ⟨1, 0, 2, 1 / 10, 1 / 5⟩) =
      [Firework.explosion ⟨⟨1, 1 / 5, 2⟩, 1, 0, 1⟩] ∧
    (1 / 10 : ℚ) ≤ 0 + 1 / 5 ∧
    (1 / 5 : ℚ) ≠ 1 / 10 := by
  have hc : ((⟨1, 0, 2, 1 / 10, 1 / 5⟩ : Rocket)).targetY ≤ (0 : ℚ) + 1 / 5 := by
    norm_num
  refine ⟨?_, by norm_num, by norm_num⟩
  simp only [updateEntity, createExplosion]
  rw [if_pos hc]
  norm_num

/-- C2 (amended): whenever a rocket's updated altitude `y + speed` reaches
its target altitude, that frame's update removes the rocket and produces
exactly one burst entity, positioned at `(x, y + speed, z)` — the updated
altitude, which is at least the target altitude and may overshoot it —
never zero entities and never both entities. -/
theorem C2_transition (r : Rocket) (d : ℚ) (h : r.targetY ≤ r.y + r.speed) :
    updateEntity d (Firework.rocket r) =
      [Firework.explosion (createExplosion r.x (r.y + r.speed) r.z d)] ∧
    (updateEntity d (Firework.rocket r)).length = 1 := by
  constructor
  · simp [updateEntity, h]
  · simp [updateEntity, h]

/-- C2 witness: the transition theorem applied to a concrete rocket that
reaches its target. -/
theorem C2_transition_witness :
    updateEntity 0 (Firework.rocket ⟨3, 1, 4, 2, 3 / 2⟩) =
      [Firework.explosion (createExplosion 3 (1 + 3 / 2) 4 0)] ∧
    (updateEntity 0 (Firework.rocket ⟨3, 1, 4, 2, 3 / 2⟩)).length = 1 :=
  C2_transition ⟨3, 1, 4, 2, 3 / 2⟩ 0 (by norm_num)

/-- Every pool entity is replaced by at most one entity per frame. -/
theorem updateEntity_length_le (d : ℚ) (fw : Firework) :
    (updateEntity d fw).length ≤ 1 := by
  cases fw with
  | rocket r =>
      simp only [updateEntity]
      split <;> simp
  | explosion b =>
      simp only [updateEntity]
      split <;> simp

/-- Updating a pool never increases its size. -/
theorem updatePool_length_le (d : ℚ) :
    ∀ l : List Firework, ((l.map (updateEntity d)).flatten).length ≤ l.length := by
  intro l
  induction l with
  | nil => simp
  | cons a l ih =>
      have ha := updateEntity_length_le d a
      simp only [List.map_cons, List.flatten_cons, List.length_append,
        List.length_cons]
      omega

/-- C6: across every frame and any spawn decision, a pool of at most 8
entities stays at of most 8 entities; when the pool is exactly at capacity
the spawn is suppressed (the frame behaves as if nothing were spawned);
and the rocket-to-burst transition replaces one entity by exactly one
entity, leaving the pool size unchanged. -/
theorem C6_pool_capacity (spawn : Option Rocket) (r : Rocket) (d : ℚ)
    (pool : List Firework) (h : pool.length ≤ 8) :
    (updateFireworks spawn d pool).length ≤ 8 ∧
    (pool.length = 8 →
      updateFireworks (some r) d pool = updateFireworks none d pool) ∧
    (updateEntity d (Firework.rocket r)).length = 1 := by
  refine ⟨?_, ?_, ?_⟩
  · cases spawn with
    | none =>
        calc (updateFireworks none d pool).length
            ≤ pool.length := updatePool_length_le d pool
          _ ≤ 8 := h
    | some r2 =>
        by_cases hlt : pool.length < 8
        · have h8 : (pool ++ [Firework.rocket r2]).length ≤ 8 := by
            simp only [List.length_append, List.length_cons, List.length_nil]
            omega
          calc (updateFireworks (some r2) d pool).length
              ≤ (pool ++ [Firework.rocket r2]).length := by
                simp only [updateFireworks, if_pos hlt]
                exact updatePool_length_le d _
            _ ≤ 8 := h8
        · calc (updateFireworks (some r2) d pool).length
              ≤ pool.length := by
                simp only [updateFireworks, if_neg hlt]
                exact updatePool_length_le d _
            _ ≤ 8 := h
  · intro h8
    have hlt : ¬ pool.length < 8 := by omega
    simp [updateFireworks, if_neg hlt]
  · simp only [updateEntity]
    split <;> simp

/-- C6 witness: the capacity theorem applied to a pool that is exactly at
capacity, together with a spawn attempt, so the suppression clause is not
vacuous. -/
theorem C6_pool_capacity_witness :
    (updateFireworks (some ⟨0, 0, 0, 5, 1⟩) 0
        (List.replicate 8 (Firework.rocket ⟨0, 0, 0, 5, 1⟩))).length ≤ 8 ∧
    ((List.replicate 8 (Firework.rocket ⟨0, 0, 0, 5, 1⟩)).length = 8 →
      updateFireworks (some ⟨0, 0, 0, 5, 1⟩) 0
          (List.replicate 8 (Firework.rocket ⟨0, 0, 0, 5, 1⟩)) =
        updateFireworks none 0
          (List.replicate 8 (Firework.rocket ⟨0, 0, 0, 5, 1⟩))) ∧
    (updateEntity 0 (Firework.rocket ⟨0, 0, 0, 5, 1⟩)).length = 1 :=
  C6_pool_capacity (some ⟨0, 0, 0, 5, 1⟩) ⟨0, 0, 0, 5, 1⟩ 0
    (List.replicate 8 (Firework.rocket ⟨0, 0, 0, 5, 1⟩)) (by simp)

/-- C7: a burst's `life` strictly decreases on every frame it exists (its
decay being positive), the visual opacity is set to exactly the new `life`
on every frame, and the burst is removed from the pool on precisely the
frame on which the updated `life` first reaches `≤ 0` — it is kept
whenever the updated `life` is still positive. -/
theorem C7_burst_life (b : Burst) (d : ℚ) (hd : 0 < b.decay) :
    (updateBurst b).life < b.life ∧
    (updateBurst b).opacity = (updateBurst b).life ∧
    (updateEntity d (Firework.explosion b) = [] ↔ (updateBurst b).life ≤ 0) ∧
    (0 < (updateBurst b).life →
      updateEntity d (Firework.explosion b) =
        [Firework.explosion (updateBurst b)]) := by
  refine ⟨by simp [updateBurst]; linarith, rfl, ?_, ?_⟩
  · simp only [updateEntity]
    split
    · rename_i hle
      simpa using hle
    · rename_i hle
      simpa using hle
  · intro hpos
    simp only [updateEntity]
    split
    · rename_i hle
      exact absurd hle (by linarith)
    · rfl

/-- C7 witness: the burst-life theorem applied to a fresh burst with the
smallest decay the sampler can produce. -/
theorem C7_burst_life_witness :
    (updateBurst ⟨⟨0, 0, 0⟩, 1, 1 / 100, 1⟩).life < (1 : ℚ) ∧
    (updateBurst ⟨⟨0, 0, 0⟩, 1, 1 / 100, 1⟩).opacity =
      (updateBurst ⟨⟨0, 0, 0⟩, 1, 1 / 100, 1⟩).life ∧
    (updateEntity 0 (Firework.explosion ⟨⟨0, 0, 0⟩, 1, 1 / 100, 1⟩) = [] ↔
      (updateBurst ⟨⟨0, 0, 0⟩, 1, 1 / 100, 1⟩).life ≤ 0) ∧
    (0 < (updateBurst ⟨⟨0, 0, 0⟩, 1, 1 / 100, 1⟩).life →
      updateEntity 0 (Firework.explosion ⟨⟨0, 0, 0⟩, 1, 1 / 100, 1⟩) =
        [Firework.explosion (updateBurst ⟨⟨0, 0, 0⟩, 1, 1 / 100, 1⟩)]) :=
  C7_burst_life ⟨⟨0, 0, 0⟩, 1, 1 / 100, 1⟩ 0 (by norm_num)

/-- A frame with no spawn maps a singleton explosion pool through
`updateEntity`. -/
theorem updateFireworks_singleton (d : ℚ) (b : Burst) :
    updateFireworks none d [Firework.explosion b] =
      updateEntity d (Firework.explosion b) := by
  simp [updateFireworks]

/-- An empty pool stays empty. -/
theorem updateFireworks_nil (d : ℚ) : updateFireworks none d [] = [] := rfl

/-- A burst whose remaining life is at most `n + 1` times its decay is gone
from the pool after `n + 1` frames. -/
theorem burst_gone (d : ℚ) :
    ∀ (n : ℕ) (b : Burst), b.life ≤ ((n : ℚ) + 1) * b.decay →
      (updateFireworks none d)^[n + 1] [Firework.explosion b] = [] := by
  intro n
  induction n with
  | zero =>
      intro b hb
      have hle : (updateBurst b).life ≤ 0 := by
        simp only [updateBurst]
        push_cast at hb
        linarith
      show updateFireworks none d [Firework.explosion b] = []
      rw [updateFireworks_singleton]
      simp only [updateEntity]
      exact if_pos hle
  | succ n ih =>
      intro b hb
      have hstep : (updateFireworks none d)^[n + 1 + 1] [Firework.explosion b]
          = (updateFireworks none d)^[n + 1]
              (updateFireworks none d [Firework.explosion b]) := by
        rw [Function.iterate_succ_apply]
      rw [hstep, updateFireworks_singleton]
      simp only [updateEntity]
      split
      · exact Function.iterate_fixed (updateFireworks_nil d) (n + 1)
      · apply ih
        simp only [updateBurst]
        push_cast at hb ⊢
        linarith

/-- C10: a burst created by `createExplosion` with decay sample
`u ∈ [0, 1)` has its decay in `[0.01, 0.015)`, and starting from `life =
1.0` it is removed from the pool after at most 100 update frames: 100
spawn-free frames turn the singleton pool holding it into the empty
pool. -/
theorem C10_bounded_lifetime (x y z u : ℚ) (h0 : 0 ≤ u) (h1 : u < 1) :
    1 / 100 ≤ decaySample u ∧ decaySample u < 15 / 1000 ∧
    (updateFireworks none 0)^[100]
      [Firework.explosion (createExplosion x y z (decaySample u))] = [] := by
  have hlo : 1 / 100 ≤ decaySample u := by
    have : 0 ≤ u * (5 / 1000) := by positivity
    simp only [decaySample]
    linarith
  refine ⟨hlo, ?_, ?_⟩
  · have : u * (5 / 1000) < 5 / 1000 := by
      have h5 : (0 : ℚ) < 5 / 1000 := by norm_num
      calc u * (5 / 1000) < 1 * (5 / 1000) := by
            exact mul_lt_mul_of_pos_right h1 h5
        _ = 5 / 1000 := by ring
    simp only [decaySample]
    linarith
  · have h := burst_gone 0 99 (createExplosion x y z (decaySample u)) ?_
    · rwa [show (99 : ℕ) + 1 = 100 from rfl] at h
    · simp only [createExplosion]
      have : (1 : ℚ) ≤ 100 * decaySample u := by
        calc (1 : ℚ) = 100 * (1 / 100) := by norm_num
          _ ≤ 100 * decaySample u := by linarith
      push_cast
      linarith

/-- C10 witness: the bounded-lifetime theorem at the slowest decay the
sampler can produce. -/
theorem C10_bounded_lifetime_witness :
    1 / 100 ≤ decaySample 0 ∧ decaySample 0 < 15 / 1000 ∧
    (updateFireworks none 0)^[100]
      [Firework.explosion (createExplosion 0 0 0 (decaySample 0))] = [] :=
  C10_bounded_lifetime 0 0 0 0 (by norm_num) (by norm_num)

/-- The assembly step never lets the progress exceed 1 at frame end. -/
theorem assemblyStep_le_one (s : AssemblyState) (h : s.progress ≤ 1) :
    (assemblyStep s).progress ≤ 1 := by
  simp only [assemblyStep]
  split
  · split
    · exact le_refl 1
    · rename_i hp
      push_neg at hp
      exact le_of_lt hp
  · exact h

/-- The assembly step never decreases the progress. -/
theorem assemblyStep_mono (s : AssemblyState) (h0 : 0 ≤ s.speed) :
    s.progress ≤ (assemblyStep s).progress := by
  simp only [assemblyStep]
  split
  · rename_i hlt
    split
    · exact le_of_lt hlt
    · have : (0 : ℚ) < explosionAcceleration := by norm_num [explosionAcceleration]
      simp only []
      linarith
  · exact le_refl _

/-- Once the progress has reached 1, the state is frozen forever. -/
theorem assemblyStep_frozen (s : AssemblyState) (h : s.progress = 1) :
    assemblyStep s = s := by
  simp [assemblyStep, h]

/-- While it has not yet saturated, every frame moves the progress up by at
least `explosionSpeed0 + explosionAcceleration = 1/800`, because the speed
never drops below its initial value. -/
theorem assembly_reach (n : ℕ) :
    (assemblyIter n).progress = 1 ∨
      (explosionSpeed0 ≤ (assemblyIter n).speed ∧
        (n : ℚ) * (1 / 800) ≤ (assemblyIter n).progress ∧
        (assemblyIter n).progress ≤ 1) := by
  induction n with
  | zero =>
      right
      refine ⟨le_refl _, by norm_num [assemblyIter], by norm_num [assemblyIter]⟩
  | succ n ih =>
      have hiter : assemblyIter (n + 1) = assemblyStep (assemblyIter n) := by
        simp only [assemblyIter, Function.iterate_succ_apply']
      rcases ih with h1 | ⟨hs, hp, hle⟩
      · left
        rw [hiter, assemblyStep_frozen _ h1]
        exact h1
      · by_cases hsat : (assemblyIter n).progress = 1
        · left
          rw [hiter, assemblyStep_frozen _ hsat]
          exact hsat
        · have hlt : (assemblyIter n).progress < 1 := lt_of_le_of_ne hle hsat
          rw [hiter]
          simp only [assemblyStep, if_pos hlt]
          split
          · left
            rfl
          · rename_i hnc
            push_neg at hnc
            right
            refine ⟨?_, ?_, le_of_lt hnc⟩
            · simp only []
              have : (0 : ℚ) < explosionAcceleration := by
                norm_num [explosionAcceleration]
              linarith
            · simp only []
              have hacc : explosionSpeed0 + explosionAcceleration = 1 / 800 := by
                norm_num [explosionSpeed0, explosionAcceleration]
              push_cast
              linarith

/-- The assembly progress saturates at exactly 1 within 800 frames. -/
theorem assemblyIter_reaches_one : (assemblyIter 800).progress = 1 := by
  rcases assembly_reach 800 with h | ⟨_, hp, hle⟩
  · exact h
  · have : (800 : ℚ) * (1 / 800) = 1 := by norm_num
    linarith

/-- C5: on every state with a nonnegative speed and progress not beyond 1
(as holds at startup and is preserved), a frame never decreases the
progress, never leaves it above 1 at frame end, and never mutates the
state once the progress has reached exactly 1; moreover from the startup
state the progress reaches exactly 1 within 800 frames. -/
theorem C5_assembly_progress (s : AssemblyState) (h0 : 0 ≤ s.speed)
    (h1 : s.progress ≤ 1) :
    s.progress ≤ (assemblyStep s).progress ∧
    (assemblyStep s).progress ≤ 1 ∧
    (s.progress = 1 → assemblyStep s = s) ∧
    (assemblyIter 800).progress = 1 :=
  ⟨assemblyStep_mono s h0, assemblyStep_le_one s h1,
    assemblyStep_frozen s, assemblyIter_reaches_one⟩

/-- C5 witness: the assembly theorem applied at the startup state. -/
theorem C5_assembly_progress_witness :
    (⟨0, explosionSpeed0⟩ : AssemblyState).progress ≤
      (assemblyStep ⟨0, explosionSpeed0⟩).progress ∧
    (assemblyStep ⟨0, explosionSpeed0⟩).progress ≤ 1 ∧
    ((⟨0, explosionSpeed0⟩ : AssemblyState).progress = 1 →
      assemblyStep ⟨0, explosionSpeed0⟩ = ⟨0, explosionSpeed0⟩) ∧
    (assemblyIter 800).progress = 1 :=
  C5_assembly_progress ⟨0, explosionSpeed0⟩
    (by norm_num [explosionSpeed0]) (by norm_num)

/-- C9: the highlight invariant — every instance other than the currently
highlighted one carries exactly its originally-assigned palette color from
the immutable table, and the highlighted one carries the highlight color —
holds at startup and is preserved by every frame for every hit-test
result.  In particular, whenever the selection moves or clears, the
previously highlighted ornament is restored to its original color, and no
never-highlighted ornament is ever modified. -/
theorem C9_highlight_restore (orig : ℕ → Vec3) (hit : Option ℕ)
    (s : HighlightState) (h : HighlightInv orig s) :
    HighlightInv orig (highlightStep orig hit s) ∧
    HighlightInv orig ⟨none, orig⟩ := by
  constructor
  · intro k
    cases hit with
    | none =>
        cases hs : s.hovered with
        | none =>
            have hk := h k
            rw [hs] at hk
            simp only [highlightStep, hs]
            simpa using hk
        | some i =>
            simp only [highlightStep, hs, setColorAt]
            by_cases hki : k = i
            · subst hki
              simp
            · have hk := h k
              rw [hs] at hk
              simp only [if_neg hki]
              have : (some i : Option ℕ) ≠ some k := by
                simpa using fun he => hki he.symm
              rw [if_neg this] at hk
              simpa using hk
    | some j =>
        by_cases hj : s.hovered = some j
        · simp only [highlightStep, if_pos hj]
          have hk := h k
          exact hk
        · simp only [highlightStep, if_neg hj]
          cases hs : s.hovered with
          | none =>
              simp only [setColorAt]
              by_cases hkj : k = j
              · subst hkj
                simp
              · have hk := h k
                rw [hs] at hk
                simp only [if_neg hkj]
                have hne : (some j : Option ℕ) ≠ some k := by
                  simpa using fun he => hkj he.symm
                rw [if_neg hne]
                simpa using hk
          | some i =>
              simp only [setColorAt]
              by_cases hkj : k = j
              · subst hkj
                simp
              · have hne : (some j : Option ℕ) ≠ some k := by
                  simpa using fun he => hkj he.symm
                simp only [if_neg hkj, if_neg hne]
                by_cases hki : k = i
                · subst hki
                  simp
                · have hk := h k
                  rw [hs] at hk
                  have hne2 : (some i : Option ℕ) ≠ some k := by
                    simpa using fun he => hki he.symm
                  rw [if_neg hne2] at hk
                  simp only [if_neg hki]
                  exact hk
  · intro k
    simp [HighlightInv]

/-- C9 witness: invariant preservation on a concrete three-ornament state,
moving the highlight from instance 0 to instance 1. -/
theorem C9_highlight_restore_witness :
    HighlightInv (fun _ => ⟨1, 0, 0⟩)
      (highlightStep (fun _ => ⟨1, 0, 0⟩) (some 1)
        ⟨some 0, setColorAt (fun _ => ⟨1, 0, 0⟩) 0 whiteColor⟩) ∧
    HighlightInv (fun _ => ⟨1, 0, 0⟩) ⟨none, fun _ => ⟨1, 0, 0⟩⟩ :=
  C9_highlight_restore (fun _ => ⟨1, 0, 0⟩) (some 1)
    ⟨some 0, setColorAt (fun _ => ⟨1, 0, 0⟩) 0 whiteColor⟩
    (by
      intro k
      simp only [setColorAt, Option.some.injEq]
      split_ifs <;> simp_all)

/-- C8: the per-vertex displacement factor is
`1 - (smoothstep(0,1,progress))^(1/2)`, and it equals exactly 1 at
progress 0 (fully dispersed) and exactly 0 at progress 1 (fully
assembled). -/
theorem C8_explode_factor :
    explodeFactor 0 = 1 ∧ explodeFactor 1 = 0 ∧
    (∀ p : ℝ, explodeFactor p = 1 - smoothstep01 p ^ ((1 : ℝ) / 2)) := by
  refine ⟨?_, ?_, fun p => rfl⟩
  · have h0 : smoothstep01 0 = 0 := by
      norm_num [smoothstep01]
    rw [explodeFactor, h0]
    rw [Real.zero_rpow (by norm_num)]
    norm_num
  · have h1 : smoothstep01 1 = 1 := by
      norm_num [smoothstep01]
    rw [explodeFactor, h1]
    rw [Real.one_rpow]
    norm_num

/-- C3 (counterexample): for foliage instance 75 of 3000 (with the random
jitter at 0 and the radial sample at 1), the source's angle
`(75/3000)·π·40` is `π`, placing the leaf at `x = -3.9`, while the claimed
angular rate `(75/3000)·40·2π` gives `2π`, which would place it at
`x = +3.9`; the two samplers disagree. -/
theorem C3_counterexample :
    (leafPos 12 4 3000 75 0 1).1 = -(39 / 10) ∧
    (leafPosClaimed 12 4 3000 75 0 1).1 = 39 / 10 ∧
    leafPos 12 4 3000 75 0 1 ≠ leafPosClaimed 12 4 3000 75 0 1 := by
  have hfr : ((75 : ℕ) : ℝ) / ((3000 : ℕ) : ℝ) = 1 / 40 := by norm_num
  have h1 : (leafPos 12 4 3000 75 0 1).1 = -(39 / 10) := by
    have e1 : (leafPos 12 4 3000 75 0 1).1 =
        Real.cos (((75 : ℕ) : ℝ) / ((3000 : ℕ) : ℝ) * Real.pi * 40 + 0) *
          ((1 - ((75 : ℕ) : ℝ) / ((3000 : ℕ) : ℝ)) * 4 * (1 / 2 + 1 * (1 / 2))) := rfl
    rw [e1, hfr]
    rw [show (1 : ℝ) / 40 * Real.pi * 40 + 0 = Real.pi by ring, Real.cos_pi]
    norm_num
  have h2 : (leafPosClaimed 12 4 3000 75 0 1).1 = 39 / 10 := by
    have e2 : (leafPosClaimed 12 4 3000 75 0 1).1 =
        Real.cos (((75 : ℕ) : ℝ) / ((3000 : ℕ) : ℝ) * (40 * (2 * Real.pi)) + 0) *
          ((1 - ((75 : ℕ) : ℝ) / ((3000 : ℕ) : ℝ)) * 4 * (1 / 2 + 1 * (1 / 2))) := rfl
    rw [e2, hfr]
    rw [show (1 : ℝ) / 40 * (40 * (2 * Real.pi)) + 0 = 2 * Real.pi by ring,
      Real.cos_two_pi]
    norm_num
  refine ⟨h1, h2, ?_⟩
  intro heq
  have hx := congrArg Prod.fst heq
  rw [h1, h2] at hx
  norm_num at hx

/-- C3 (amended): foliage instance `i` of `n` sits at height `(i/n)·H`, at
an angular position that advances by `(i/n)·40·π` (twenty full turns over
the tree, not forty) plus the random jitter, and at a radial distance from
the axis of exactly `r·(1/2 + u/2) ∈ [r/2, r]` where `r = (1 - i/n)·R`. -/
theorem C3_leaf_spiral (H R : ℝ) (n i : ℕ) (jitter u : ℝ) (hn : 0 < n)
    (hi : i ≤ n) (hR : 0 ≤ R) (hu0 : 0 ≤ u) (hu1 : u < 1) :
    (leafPos H R n i jitter u).2.1 = (i : ℝ) / (n : ℝ) * H ∧
    (leafPos H R n i jitter u).1 =
      Real.cos ((i : ℝ) / (n : ℝ) * Real.pi * 40 + jitter) *
        ((1 - (i : ℝ) / (n : ℝ)) * R * (1 / 2 + u * (1 / 2))) ∧
    Real.sqrt ((leafPos H R n i jitter u).1 ^ 2 +
        (leafPos H R n i jitter u).2.2 ^ 2) =
      (1 - (i : ℝ) / (n : ℝ)) * R * (1 / 2 + u * (1 / 2)) ∧
    (1 - (i : ℝ) / (n : ℝ)) * R * (1 / 2) ≤
      (1 - (i : ℝ) / (n : ℝ)) * R * (1 / 2 + u * (1 / 2)) ∧
    (1 - (i : ℝ) / (n : ℝ)) * R * (1 / 2 + u * (1 / 2)) ≤
      (1 - (i : ℝ) / (n : ℝ)) * R := by
  have hnR : (0 : ℝ) < (n : ℝ) := by exact_mod_cast hn
  have hfr1 : (i : ℝ) / (n : ℝ) ≤ 1 := by
    rw [div_le_one hnR]
    exact_mod_cast hi
  have hrnn : 0 ≤ (1 - (i : ℝ) / (n : ℝ)) * R :=
    mul_nonneg (by linarith) hR
  have hdist0 : 0 ≤ (1 - (i : ℝ) / (n : ℝ)) * R * (1 / 2 + u * (1 / 2)) :=
    mul_nonneg hrnn (by linarith)
  refine ⟨rfl, rfl, ?_, ?_, ?_⟩
  · have e1 : (leafPos H R n i jitter u).1 =
        Real.cos ((i : ℝ) / (n : ℝ) * Real.pi * 40 + jitter) *
          ((1 - (i : ℝ) / (n : ℝ)) * R * (1 / 2 + u * (1 / 2))) := rfl
    have e2 : (leafPos H R n i jitter u).2.2 =
        Real.sin ((i : ℝ) / (n : ℝ) * Real.pi * 40 + jitter) *
          ((1 - (i : ℝ) / (n : ℝ)) * R * (1 / 2 + u * (1 / 2))) := rfl
    rw [e1, e2]
    have hsq : (Real.cos ((i : ℝ) / (n : ℝ) * Real.pi * 40 + jitter) *
          ((1 - (i : ℝ) / (n : ℝ)) * R * (1 / 2 + u * (1 / 2)))) ^ 2 +
        (Real.sin ((i : ℝ) / (n : ℝ) * Real.pi * 40 + jitter) *
          ((1 - (i : ℝ) / (n : ℝ)) * R * (1 / 2 + u * (1 / 2)))) ^ 2 =
        ((1 - (i : ℝ) / (n : ℝ)) * R * (1 / 2 + u * (1 / 2))) ^ 2 := by
      have hpy := Real.cos_sq_add_sin_sq
        ((i : ℝ) / (n : ℝ) * Real.pi * 40 + jitter)
      nlinarith [hpy]
    rw [hsq]
    exact Real.sqrt_sq hdist0
  · nlinarith [mul_nonneg hrnn hu0]
  · nlinarith [mul_nonneg hrnn (by linarith : (0 : ℝ) ≤ 1 / 2 - u * (1 / 2))]

/-- C3 witness: the amended spiral theorem at the base instance of a
40-instance tree. -/
theorem C3_leaf_spiral_witness :
    (leafPos 12 4 40 0 0 0).2.1 = ((0 : ℕ) : ℝ) / ((40 : ℕ) : ℝ) * 12 ∧
    (leafPos 12 4 40 0 0 0).1 =
      Real.cos (((0 : ℕ) : ℝ) / ((40 : ℕ) : ℝ) * Real.pi * 40 + 0) *
        ((1 - ((0 : ℕ) : ℝ) / ((40 : ℕ) : ℝ)) * 4 * (1 / 2 + 0 * (1 / 2))) ∧
    Real.sqrt ((leafPos 12 4 40 0 0 0).1 ^ 2 +
        (leafPos 12 4 40 0 0 0).2.2 ^ 2) =
      (1 - ((0 : ℕ) : ℝ) / ((40 : ℕ) : ℝ)) * 4 * (1 / 2 + 0 * (1 / 2)) ∧
    (1 - ((0 : ℕ) : ℝ) / ((40 : ℕ) : ℝ)) * 4 * (1 / 2) ≤
      (1 - ((0 : ℕ) : ℝ) / ((40 : ℕ) : ℝ)) * 4 * (1 / 2 + 0 * (1 / 2)) ∧
    (1 - ((0 : ℕ) : ℝ) / ((40 : ℕ) : ℝ)) * 4 * (1 / 2 + 0 * (1 / 2)) ≤
      (1 - ((0 : ℕ) : ℝ) / ((40 : ℕ) : ℝ)) * 4 :=
  C3_leaf_spiral 12 4 40 0 0 0 (by norm_num) (by norm_num) (by norm_num)
    (by norm_num) (by norm_num)

/-- C4 (counterexample): a gift box sampled at height ratio 0 and angle 0
sits at radial distance `4.2` from the axis, not at the claimed cone
surface radius `(1 - 0)·4 = 4`: the box loop pushes boxes out by the extra
constant `0.2`. -/
theorem C4_counterexample :
    Real.sqrt ((boxPos 12 4 0 0).1 ^ 2 + (boxPos 12 4 0 0).2.2 ^ 2) = 21 / 5 ∧
    (21 / 5 : ℝ) ≠ (1 - 0) * 4 := by
  constructor
  · have e1 : (boxPos 12 4 0 0).1 = Real.cos 0 * ((1 - 0) * 4 + 1 / 5) := rfl
    have e2 : (boxPos 12 4 0 0).2.2 = Real.sin 0 * ((1 - 0) * 4 + 1 / 5) := rfl
    rw [e1, e2, Real.cos_zero, Real.sin_zero]
    rw [show ((1 : ℝ) * ((1 - 0) * 4 + 1 / 5)) ^ 2 +
        ((0 : ℝ) * ((1 - 0) * 4 + 1 / 5)) ^ 2 = (21 / 5) ^ 2 by norm_num]
    exact Real.sqrt_sq (by norm_num)
  · norm_num

/-- C4 (amended): populating a group of capacity `nn` yields exactly `nn`
instances; an ornament at height ratio `fr` sits at height `fr·H` and at
radial distance exactly `(1 - fr)·R` (on the cone surface); a gift box at
height ratio `fr` sits at height `fr·H` and at radial distance exactly
`(1 - fr)·R + 0.2` (pushed slightly off the surface). -/
theorem C4_population {α : Type} (sample : ℕ → α) (nn : ℕ)
    (H R fr angle : ℝ) (h0 : 0 ≤ fr) (h1 : fr ≤ 1) (hR : 0 ≤ R) :
    (populate nn sample).length = nn ∧
    (ornamentPos H R fr angle).2.1 = fr * H ∧
    Real.sqrt ((ornamentPos H R fr angle).1 ^ 2 +
        (ornamentPos H R fr angle).2.2 ^ 2) = (1 - fr) * R ∧
    (boxPos H R fr angle).2.1 = fr * H ∧
    Real.sqrt ((boxPos H R fr angle).1 ^ 2 +
        (boxPos H R fr angle).2.2 ^ 2) = (1 - fr) * R + 1 / 5 := by
  have hrnn : 0 ≤ (1 - fr) * R := mul_nonneg (by linarith) hR
  refine ⟨by simp [populate], rfl, ?_, rfl, ?_⟩
  · have e1 : (ornamentPos H R fr angle).1 =
        Real.cos angle * ((1 - fr) * R) := rfl
    have e2 : (ornamentPos H R fr angle).2.2 =
        Real.sin angle * ((1 - fr) * R) := rfl
    rw [e1, e2]
    have hsq : (Real.cos angle * ((1 - fr) * R)) ^ 2 +
        (Real.sin angle * ((1 - fr) * R)) ^ 2 = ((1 - fr) * R) ^ 2 := by
      nlinarith [Real.cos_sq_add_sin_sq angle]
    rw [hsq]
    exact Real.sqrt_sq hrnn
  · have e1 : (boxPos H R fr angle).1 =
        Real.cos angle * ((1 - fr) * R + 1 / 5) := rfl
    have e2 : (boxPos H R fr angle).2.2 =
        Real.sin angle * ((1 - fr) * R + 1 / 5) := rfl
    rw [e1, e2]
    have hsq : (Real.cos angle * ((1 - fr) * R + 1 / 5)) ^ 2 +
        (Real.sin angle * ((1 - fr) * R + 1 / 5)) ^ 2 =
        ((1 - fr) * R + 1 / 5) ^ 2 := by
      nlinarith [Real.cos_sq_add_sin_sq angle]
    rw [hsq]
    exact Real.sqrt_sq (by linarith)

/-- C4 witness: the population theorem for a ten-instance group with a
concrete height ratio. -/
theorem C4_population_witness :
    (populate 10 (fun k => k)).length = 10 ∧
    (ornamentPos 12 4 (1 / 2) 0).2.1 = 1 / 2 * 12 ∧
    Real.sqrt ((ornamentPos 12 4 (1 / 2) 0).1 ^ 2 +
        (ornamentPos 12 4 (1 / 2) 0).2.2 ^ 2) = (1 - 1 / 2) * 4 ∧
    (boxPos 12 4 (1 / 2) 0).2.1 = 1 / 2 * 12 ∧
    Real.sqrt ((boxPos 12 4 (1 / 2) 0).1 ^ 2 +
        (boxPos 12 4 (1 / 2) 0).2.2 ^ 2) = (1 - 1 / 2) * 4 + 1 / 5 :=
  C4_population (fun k => k) 10 12 4 (1 / 2) 0 (by norm_num) (by norm_num)
    (by norm_num)

end ChristmasTree
